import Mathlib

/-!
# Verification of the latency probing and statistics engine (`ws_latency.py`)

Shallow embedding of the measurement core of `src/terraform/scripts/ws_latency.py`:

* `LatencyStats` with `add` and `compute` (numpy-based summary statistics);
* the WebSocket ping/pong probe state touched by `send_ping` / `on_pong`
  (`WSPingPongLatency`), including the FIFO pending-ping queue;
* the trade-stream probe message handler (`TradeStreamLatency.on_message`);
* the TCP connect probe's measurement loop (`TCPConnectLatency.run`);
* the orchestration summary of `run_full_stack`.

Timestamps (`time.perf_counter_ns` / `time.time_ns`) are modelled as rationals
(nanoseconds), latencies as rationals (milliseconds); Python float arithmetic
on these quantities is modelled as exact rational arithmetic.  Side effects
relevant to the claims (issuing a ping frame, printing a warning or a log
line) are modelled as explicit outputs or counters.
-/

namespace WsLatency

/-- The sorted sample sequence, modelling numpy's ascending sort of the sample
array (used internally by `np.percentile` / `np.median`; a list of rationals
has a unique sorted permutation as a value sequence). -/
def sortQ (xs : List ℚ) : List ℚ :=
  List.insertionSort (· ≤ ·) xs

/-- `float(np.min(arr))`: the least sample, i.e. the head of the sorted
sequence. -/
def npMin (xs : List ℚ) : ℚ :=
  (sortQ xs).getD 0 0

/-- `float(np.max(arr))`: the greatest sample, i.e. the last entry of the
sorted sequence. -/
def npMax (xs : List ℚ) : ℚ :=
  (sortQ xs).getD (xs.length - 1) 0

/-- `float(np.mean(arr))`: the arithmetic mean. -/
def npMean (xs : List ℚ) : ℚ :=
  xs.sum / xs.length

/-- `float(np.percentile(arr, q))` with numpy's default method (linear
interpolation between order statistics): with `s` the sorted samples,
`n = s.length`, numpy evaluates the virtual index `h = (n-1) * q / 100`
and returns `s[⌊h⌋] + (h - ⌊h⌋) * (s[⌊h⌋ + 1] - s[⌊h⌋])`, the upper index
clamped to `n - 1`. -/
def npPercentile (xs : List ℚ) (q : ℚ) : ℚ :=
  let s := sortQ xs
  let n := s.length
  let h : ℚ := ((n : ℚ) - 1) * q / 100
  let i : Nat := (⌊h⌋).toNat
  let lo := s.getD i 0
  let hi := s.getD (min (i + 1) (n - 1)) 0
  lo + (h - ⌊h⌋) * (hi - lo)

/-- `float(np.median(arr))`: middle entry of the sorted sequence for odd
length, mean of the two middle entries for even length. -/
def npMedian (xs : List ℚ) : ℚ :=
  let s := sortQ xs
  let n := s.length
  if n % 2 = 1 then s.getD (n / 2) 0
  else (s.getD (n / 2 - 1) 0 + s.getD (n / 2) 0) / 2

/-- `LatencyStats` (ws_latency.py, lines 31-37): the statistics container,
an append-only list of latency samples in milliseconds. -/
structure LatencyStats where
  samples : List ℚ
deriving Repr, DecidableEq

/-- `LatencyStats.add` (line 36-37): append one sample. -/
def LatencyStats.add (st : LatencyStats) (latency_ms : ℚ) : LatencyStats :=
  { samples := st.samples ++ [latency_ms] }

/-- The statistics snapshot built by `LatencyStats.compute` (lines 44-56).
The Python dict maps fixed string keys to floats; `p99_9` is mapped to
`None` when fewer than 1000 samples exist, modelled by `Option`.  Python's
`stdev` entry is `float(np.std(arr))`, an irrational square root; the
snapshot carries its square `stdevSq` (the population variance), which
determines it. -/
structure StatsSnapshot where
  count : Nat
  min : ℚ
  max : ℚ
  mean : ℚ
  median : ℚ
  stdevSq : ℚ
  p50 : ℚ
  p90 : ℚ
  p95 : ℚ
  p99 : ℚ
  p99_9 : Option ℚ
deriving Repr, DecidableEq

/-- `LatencyStats.compute` (lines 39-56): an error for fewer than 2 samples,
otherwise the snapshot of numpy summary statistics; `p99_9` is `None`
(here `none`) unless at least 1000 samples exist. -/
def LatencyStats.compute (st : LatencyStats) : Except String StatsSnapshot :=
  if st.samples.length < 2 then .error "Not enough samples"
  else .ok
    { count := st.samples.length
      min := npMin st.samples
      max := npMax st.samples
      mean := npMean st.samples
      median := npMedian st.samples
      stdevSq := (st.samples.map (fun x => (x - npMean st.samples) ^ 2)).sum / st.samples.length
      p50 := npPercentile st.samples 50
      p90 := npPercentile st.samples 90
      p95 := npPercentile st.samples 95
      p99 := npPercentile st.samples 99
      p99_9 := if st.samples.length ≥ 1000 then some (npPercentile st.samples (999 / 10)) else none }

/-- The keys of the Python dict returned by `LatencyStats.compute`
(lines 40-56): the dict literal of lines 44-56 always contains the key
`"p99_9"` (its value is `None` for fewer than 1000 samples); the `< 2`
branch returns the single-key error dict. -/
def computeDictKeys (st : LatencyStats) : List String :=
  if st.samples.length < 2 then ["error"]
  else ["count", "min", "max", "mean", "median", "stdev",
        "p50", "p90", "p95", "p99", "p99_9"]

/-- The mutable state of `WSPingPongLatency` (lines 81-132) touched by
`send_ping` and `on_pong`: the FIFO queue `pending_pings` of monotonic send
timestamps (nanoseconds, head = oldest), the accumulator `stats`, and the
connection flags `self.sock` (truthiness modelled by `sockOpen`) and
`self.running`.  The lock serialises `send_ping` and `on_pong`, so their
effects are modelled as atomic state transitions. -/
structure WSState where
  pending : List ℚ
  stats : LatencyStats
  sockOpen : Bool
  running : Bool
deriving Repr, DecidableEq

/-- `WSPingPongLatency.send_ping` (lines 126-132): if `self.sock and
self.running`, then under the lock it takes the send timestamp, issues the
ping frame, and appends the timestamp to `pending_pings`; otherwise nothing
happens.  The returned Bool records whether a ping frame was issued. -/
def WSState.sendPing (st : WSState) (send_time : ℚ) : WSState × Bool :=
  if st.sockOpen && st.running then
    ({ st with pending := st.pending ++ [send_time] }, true)
  else (st, false)

/-- `WSPingPongLatency.on_pong` (lines 107-116): under the lock, if the
pending queue is non-empty, pop its head `send_time` and record
`(recv_time - send_time) / 1_000_000` milliseconds as one latency sample;
an empty queue (stray pong) leaves the state untouched (the `else` branch
of line 116 is only a comment). -/
def WSState.onPong (st : WSState) (recv_time : ℚ) : WSState :=
  match st.pending with
  | [] => st
  | send_time :: rest =>
      { st with pending := rest
                stats := st.stats.add ((recv_time - send_time) / 1000000) }

/-- One serialised lock acquisition on the ping/pong probe: either a
`send_ping` call with its captured timestamp, or an `on_pong` callback with
its receive timestamp. -/
inductive WSEvent where
  | send (t : ℚ)
  | pong (r : ℚ)
deriving Repr, DecidableEq

/-- Apply one serialised event to the probe state. -/
def WSState.step (st : WSState) (e : WSEvent) : WSState :=
  match e with
  | .send t => (st.sendPing t).1
  | .pong r => st.onPong r

/-- Run a serialised trace of send/pong events. -/
def WSState.run (st : WSState) (tr : List WSEvent) : WSState :=
  tr.foldl WSState.step st

/-- The send timestamps of a trace, in trace order. -/
def sendsOf (tr : List WSEvent) : List ℚ :=
  tr.filterMap (fun e => match e with | .send t => some t | .pong _ => none)

/-- The pong receive timestamps of a trace, in trace order. -/
def pongsOf (tr : List WSEvent) : List ℚ :=
  tr.filterMap (fun e => match e with | .send _ => none | .pong r => some r)

/-- Causality of a ping/pong trace: in every prefix, at most as many pongs
have been delivered as pings were sent (each pong is the transport's
response to an earlier ping, and the transport preserves frame order). -/
def Causal (tr : List WSEvent) : Prop :=
  ∀ n, (pongsOf (tr.take n)).length ≤ (sendsOf (tr.take n)).length

/-- The probe state at the start of the measurement phase: connection open
and running, queue and accumulator freshly reset (lines 188-191). -/
def WSState.initial : WSState :=
  { pending := [], stats := { samples := [] }, sockOpen := true, running := true }

/-- One iteration of the TCP connect probe's measurement loop
(`TCPConnectLatency.run`, lines 384-403): a successful connect records
`(end - start) / 1_000_000` as one sample (`some latency_ms`); an exception
records nothing and prints one `Connection i failed` line (`none`).  The
second component counts the failure log lines. -/
def tcpStep (acc : LatencyStats × Nat) (outcome : Option ℚ) : LatencyStats × Nat :=
  match outcome with
  | some latency_ms => (acc.1.add latency_ms, acc.2)
  | none => (acc.1, acc.2 + 1)

/-- The whole TCP measurement loop over the per-iteration outcomes, starting
from the probe's accumulator (empty at construction, line 352). -/
def tcpRun (outcomes : List (Option ℚ)) : LatencyStats × Nat :=
  outcomes.foldl tcpStep ({ samples := [] }, 0)

/-- The observable state of `TradeStreamLatency` (lines 222-270) touched by
`on_message`: the accumulator, `message_count`, the `warmup` flag, and the
number of negative-latency warning lines printed (line 261), modelled by
`warnings` (the class itself has no such field; the counter models stdout). -/
structure TSState where
  stats : LatencyStats
  messageCount : Nat
  warmup : Bool
  warnings : Nat
deriving Repr, DecidableEq

/-- An inbound stream message as `on_message` classifies it: `malformed`
(`json.loads` raises, line 243), `noEvent` (parsed but no key `E`), or
`event e` (parsed with event time `E = e` milliseconds). -/
inductive TSMsg where
  | malformed
  | noEvent
  | event (e : ℚ)
deriving Repr, DecidableEq

/-- `TradeStreamLatency.on_message` (lines 238-270): the receive wall-clock
time `recv_time_ns` is taken on entry; a malformed message returns at once;
during warmup every message is dropped; a message carrying event time `e`
(ms) records `latency_ms = (recv_time_ns - e * 1_000_000) / 1_000_000`
unconditionally, increments `message_count`, and prints the NTP warning
only when `latency_ms < -100` and `message_count` was `0`. -/
def TSState.onMessage (st : TSState) (recv_time_ns : ℚ) (m : TSMsg) : TSState :=
  match m with
  | .malformed => st
  | .noEvent => st
  | .event e =>
      if st.warmup then st
      else
        let latency_ms := (recv_time_ns - e * 1000000) / 1000000
        { stats := st.stats.add latency_ms
          messageCount := st.messageCount + 1
          warmup := st.warmup
          warnings :=
            if latency_ms < -100 ∧ st.messageCount = 0 then st.warnings + 1
            else st.warnings }

/-- Run `on_message` over a list of (receive time, message) pairs. -/
def TSState.runMsgs (st : TSState) (msgs : List (ℚ × TSMsg)) : TSState :=
  msgs.foldl (fun s p => s.onMessage p.1 p.2) st

/-- The trade-stream probe state right after the warmup boundary
(lines 329-330): `warmup` cleared, accumulator replaced by a fresh one;
`message_count` is still 0 because warmup messages return before reaching
the counting code. -/
def TSState.postWarmup : TSState :=
  { stats := { samples := [] }, messageCount := 0, warmup := false, warnings := 0 }

/-- The latencies that the post-warmup handler computes for the event
messages of a list, in order: `(recv - e * 1_000_000) / 1_000_000` for each
`event e` received at `recv`. -/
def eventLats (msgs : List (ℚ × TSMsg)) : List ℚ :=
  msgs.filterMap (fun p =>
    match p.2 with
    | .event e => some ((p.1 - e * 1000000) / 1000000)
    | _ => none)

/-- `run_full_stack`'s results dict (lines 428-446): entries are inserted
in the fixed order `tcp_connect`, `ws_ping_pong`, `trade_stream`, each
present only when its probe's `run` returned a stats object (not `None`);
the stored value is that object's `compute()` dict. -/
def buildResults (tcp ping trade : Option LatencyStats) :
    List (String × Except String StatsSnapshot) :=
  (match tcp with
   | some s => [("tcp_connect", s.compute)]
   | none => []) ++
  (match ping with
   | some s => [("ws_ping_pong", s.compute)]
   | none => []) ++
  (match trade with
   | some s => [("trade_stream", s.compute)]
   | none => [])

/-- The summary loop of `run_full_stack` (lines 452-454): iterate the
results dict in insertion order and print one `name: p99` line for each
entry whose dict has a `p99` key (i.e. whose `compute()` succeeded; the
error dict has no `p99`). -/
def summaryLines (results : List (String × Except String StatsSnapshot)) :
    List (String × ℚ) :=
  results.filterMap (fun p =>
    match p.2 with
    | .ok snap => some (p.1, snap.p99)
    | .error _ => none)

/-- Record a list of samples one by one with `LatencyStats.add`. -/
def recordAll (st : LatencyStats) (xs : List ℚ) : LatencyStats :=
  xs.foldl LatencyStats.add st

/-- The probe accumulator after the warmup phase recorded its samples into the
constructor-time `LatencyStats()` (lines 91 / 233). -/
def statsAfterWarmup (warm : List ℚ) : LatencyStats :=
  recordAll { samples := [] } warm

/-- The accumulator at the warmup→measurement boundary: `self.stats =
LatencyStats()` (line 190 for the ping probe, line 330 for the trade
probe) replaces the accumulator with a fresh object, discarding whatever
the warmup phase put in it. -/
def statsAtBoundary (_warm : List ℚ) : LatencyStats :=
  { samples := [] }

/-- The accumulator at the end of a run that recorded `warm` during warmup
and `meas` during measurement: the measurement samples land in the fresh
post-boundary accumulator. -/
def statsAfterRun (warm meas : List ℚ) : LatencyStats :=
  recordAll (statsAtBoundary warm) meas

/-- The nearest-rank percentile the spec describes: the entry of the sorted
sequence at index `floor(q/100 * n)`, clamped to `n - 1`.  Modelled from the
spec's words for comparison with the source's `npPercentile`; the code does
not run this method. -/
def nearestRankPercentile (xs : List ℚ) (q : ℚ) : ℚ :=
  let s := sortQ xs
  let n := s.length
  s.getD (min (⌊q / 100 * (n : ℚ)⌋).toNat (n - 1)) 0

/-- Linear interpolation between adjacent order statistics of an already
sorted sequence `s` at percentile `q`: the convex combination
`(1 - f) * s[i] + f * s[i+1]` with virtual index `h = (n-1) * q / 100`,
`i = ⌊h⌋`, `f = h - ⌊h⌋`, the upper index clamped to `n - 1`. -/
def linearInterp (s : List ℚ) (q : ℚ) : ℚ :=
  let n := s.length
  let h : ℚ := ((n : ℚ) - 1) * q / 100
  let i : Nat := (⌊h⌋).toNat
  (1 - (h - ⌊h⌋)) * s.getD i 0 + (h - ⌊h⌋) * s.getD (min (i + 1) (n - 1)) 0

/-- The summary line(s) one probe contributes to `run_full_stack`'s final
comparison: one `(name, p99)` entry if the probe returned a stats object
whose `compute()` succeeded, nothing otherwise. -/
def probeEntry (name : String) (res : Option LatencyStats) : List (String × ℚ) :=
  match res with
  | some s =>
      match s.compute with
      | .ok snap => [(name, snap.p99)]
      | .error _ => []
  | none => []

/-- How many NTP warnings a post-warmup message burst adds when the probe
has already counted `c` messages: at most one, and only when no message was
counted yet and the first event sample of the burst is below -100 ms. -/
def warnInc (c : Nat) (lats : List ℚ) : Nat :=
  if c = 0 then
    match lats with
    | [] => 0
    | l :: _ => if l < -100 then 1 else 0
  else 0

/-! ## Helper lemmas -/

theorem recordAll_samples (st : LatencyStats) (xs : List ℚ) :
    (recordAll st xs).samples = st.samples ++ xs := by
  induction xs generalizing st with
  | nil => simp [recordAll]
  | cons x rest ih =>
      simp only [recordAll, List.foldl_cons] at *
      rw [ih]
      simp [LatencyStats.add]

theorem reduceOption_length_add_countP (l : List (Option ℚ)) :
    l.reduceOption.length + l.countP (fun o => o.isNone) = l.length := by
  induction l with
  | nil => simp
  | cons o rest ih =>
      cases o with
      | none =>
          rw [List.reduceOption_cons_of_none, List.countP_cons]
          simp
          omega
      | some v =>
          rw [List.reduceOption_cons_of_some, List.countP_cons]
          simp
          omega

theorem tcpRun_go (outcomes : List (Option ℚ)) (acc : LatencyStats × Nat) :
    (outcomes.foldl tcpStep acc).1.samples = acc.1.samples ++ outcomes.reduceOption ∧
    (outcomes.foldl tcpStep acc).2 = acc.2 + outcomes.countP (fun o => o.isNone) := by
  induction outcomes generalizing acc with
  | nil => simp
  | cons o rest ih =>
      cases o with
      | none =>
          simp only [List.foldl_cons, tcpStep]
          rcases ih (acc.1, acc.2 + 1) with ⟨h1, h2⟩
          refine ⟨by simpa using h1, ?_⟩
          rw [h2]
          simp [List.countP_cons]
          omega
      | some l =>
          simp only [List.foldl_cons, tcpStep]
          rcases ih (acc.1.add l, acc.2) with ⟨h1, h2⟩
          constructor
          · rw [h1]
            simp [LatencyStats.add]
          · rw [h2]
            simp [List.countP_cons]

/-! ## C10 -/

/-- C10: calling `send_ping` when the socket reference is unset or the
running flag is false is a complete no-op: no ping frame is issued (the
returned flag is `false`) and the whole probe state — in particular the
pending-ping queue and the accumulator — is unchanged. -/
theorem C10_send_ping_closed_noop (st : WSState) (t : ℚ)
    (h : st.sockOpen = false ∨ st.running = false) :
    st.sendPing t = (st, false) := by
  unfold WSState.sendPing
  rcases h with h | h <;> simp [h]

/-- Witness for C10 at a concrete closed-socket state. -/
theorem C10_send_ping_closed_noop_witness :
    WSState.sendPing
        { pending := [1], stats := { samples := [2] }, sockOpen := false, running := true } 5
      = ({ pending := [1], stats := { samples := [2] }, sockOpen := false, running := true },
          false) :=
  C10_send_ping_closed_noop _ 5 (Or.inl rfl)

/-! ## C5 -/

/-- C5 counterexample: the claim says a stray pong (empty pending queue)
"increments a stray-pong counter".  `WSPingPongLatency` has no such counter:
`on_pong` (lines 107-116) touches only `pending_pings` and `stats`, and its
empty-queue branch is a bare comment.  The embedding carries every attribute
`on_pong` can write, and at a concrete stray-pong call the state is returned
completely unchanged — nothing is incremented. -/
theorem C5_counterexample :
    WSState.onPong
        { pending := [], stats := { samples := [3] }, sockOpen := true, running := true } 42
      = { pending := [], stats := { samples := [3] }, sockOpen := true, running := true } :=
  rfl

/-- C5 amended: a pong arriving while the pending-ping queue is empty is
silently discarded: no latency sample is recorded, the pending queue is
unchanged, and no probe state at all changes (the code maintains no
stray-pong counter). -/
theorem C5_stray_pong_noop (st : WSState) (r : ℚ) (h : st.pending = []) :
    st.onPong r = st := by
  unfold WSState.onPong
  rw [h]

/-- Witness for C5 at a concrete stray-pong state. -/
theorem C5_stray_pong_noop_witness :
    WSState.onPong
        { pending := [], stats := { samples := [] }, sockOpen := true, running := false } 7
      = { pending := [], stats := { samples := [] }, sockOpen := true, running := false } :=
  C5_stray_pong_noop _ 7 rfl

/-! ## C7 -/

/-- C7: in the TCP connect probe's measurement loop, each failed iteration
is logged (one failure line) and skipped — never substituted with zero and
never retried — so the final accumulator holds exactly the successfully
measured latencies in order, the failure log count is the number of failed
iterations, and successes and failures partition the requested
iterations. -/
theorem C7_tcp_failures_skipped (outcomes : List (Option ℚ)) :
    (tcpRun outcomes).1.samples = outcomes.reduceOption ∧
    (tcpRun outcomes).2 = outcomes.countP (fun o => o.isNone) ∧
    (tcpRun outcomes).1.samples.length + (tcpRun outcomes).2 = outcomes.length := by
  rcases tcpRun_go outcomes ({ samples := [] }, 0) with ⟨h1, h2⟩
  have hs : (tcpRun outcomes).1.samples = outcomes.reduceOption := by
    simpa [tcpRun] using h1
  have hn : (tcpRun outcomes).2 = outcomes.countP (fun o => o.isNone) := by
    simpa [tcpRun] using h2
  refine ⟨hs, hn, ?_⟩
  rw [hs, hn]
  exact reduceOption_length_add_countP outcomes

/-! ## C2 -/

/-- C2: warmup samples never appear in the final reported statistics.  At
the warmup→measurement boundary the accumulator is replaced by a fresh
`LatencyStats()`, so after recording `N` warmup samples and then `M ≥ 2`
measurement samples, `compute()` succeeds and reports `count = M`,
independent of the warmup samples. -/
theorem C2_warmup_never_polluted (warm meas : List ℚ) (h : 2 ≤ meas.length) :
    ∃ snap, (statsAfterRun warm meas).compute = .ok snap ∧ snap.count = meas.length := by
  have hsamples : (statsAfterRun warm meas).samples = meas := by
    simp [statsAfterRun, statsAtBoundary, recordAll_samples]
  have hlt : ¬ (statsAfterRun warm meas).samples.length < 2 := by
    rw [hsamples]
    omega
  unfold LatencyStats.compute
  rw [if_neg hlt]
  refine ⟨_, rfl, ?_⟩
  show (statsAfterRun warm meas).samples.length = meas.length
  rw [hsamples]

/-- Witness for C2: three warmup samples, two measurement samples, the
reported count is 2. -/
theorem C2_warmup_never_polluted_witness :
    ∃ snap, (statsAfterRun [1, 2, 3] [4, 5]).compute = .ok snap ∧ snap.count = 2 :=
  C2_warmup_never_polluted [1, 2, 3] [4, 5] (by norm_num)

/-! ## C4 -/

/-- C4 counterexample: for an accumulator with only 2 samples (fewer than
1000) the key `p99_9` is still present in the dict `compute()` returns —
the dict literal of lines 44-56 always carries it, with value `None` below
1000 samples — contradicting the claim that the field is absent below 1000
samples. -/
theorem C4_counterexample :
    "p99_9" ∈ computeDictKeys { samples := [0, 1] } ∧
    (LatencyStats.compute { samples := [0, 1] }).map StatsSnapshot.count = .ok 2 ∧
    ¬ 1000 ≤ 2 := by
  refine ⟨?_, ?_, by norm_num⟩
  · simp [computeDictKeys]
  · simp [LatencyStats.compute, Except.map]

/-- C4 amended: the `p99_9` key is present in the snapshot dict whenever
`compute()` succeeds (at least 2 samples), regardless of the count; what
depends on the count is its value, which is an actual number rather than
`None` if and only if the sample count is at least 1000. -/
theorem C4_p99_9_null_below_1000 (st : LatencyStats) (h : 2 ≤ st.samples.length) :
    "p99_9" ∈ computeDictKeys st ∧
    ∃ snap, st.compute = .ok snap ∧
      ((snap.p99_9).isSome ↔ 1000 ≤ st.samples.length) := by
  have hlt : ¬ st.samples.length < 2 := by omega
  constructor
  · simp [computeDictKeys, hlt]
  · unfold LatencyStats.compute
    rw [if_neg hlt]
    refine ⟨_, rfl, ?_⟩
    show (if st.samples.length ≥ 1000 then some (npPercentile st.samples (999 / 10))
          else none).isSome ↔ 1000 ≤ st.samples.length
    by_cases h1000 : 1000 ≤ st.samples.length
    · simp [h1000]
    · simp [h1000]

/-- Witness for the amended C4 at a concrete 2-sample accumulator. -/
theorem C4_p99_9_null_below_1000_witness :
    "p99_9" ∈ computeDictKeys { samples := [3, 4] } ∧
    ∃ snap, LatencyStats.compute { samples := [3, 4] } = .ok snap ∧
      ((snap.p99_9).isSome ↔
        1000 ≤ ({ samples := [3, 4] } : LatencyStats).samples.length) :=
  C4_p99_9_null_below_1000 { samples := [3, 4] } (by norm_num)

/-! ## C8 -/

/-- C8 counterexample: run the post-warmup handler on two event messages,
the first with latency -50 ms (not anomalous), the second with latency
-200 ms (more negative than -100 ms).  The claim says the -200 ms message
is flagged once per run; the code prints the warning only when
`message_count == 0`, so here no warning is ever printed — while the
anomalous sample is still recorded as-is. -/
theorem C8_counterexample :
    (TSState.postWarmup.runMsgs [(0, .event 50), (0, .event 200)]).warnings = 0 ∧
    (TSState.postWarmup.runMsgs [(0, .event 50), (0, .event 200)]).stats.samples
      = [-50, -200] ∧
    ((-200 : ℚ) < -100) := by
  refine ⟨?_, ?_, by norm_num⟩ <;>
    norm_num [TSState.runMsgs, TSState.postWarmup, TSState.onMessage, LatencyStats.add]

theorem runMsgs_invariant (msgs : List (ℚ × TSMsg)) (st : TSState)
    (hw : st.warmup = false) :
    (st.runMsgs msgs).stats.samples = st.stats.samples ++ eventLats msgs ∧
    (st.runMsgs msgs).messageCount = st.messageCount + (eventLats msgs).length ∧
    (st.runMsgs msgs).warnings = st.warnings + warnInc st.messageCount (eventLats msgs) := by
  induction msgs generalizing st with
  | nil =>
      refine ⟨by simp [TSState.runMsgs, eventLats], by simp [TSState.runMsgs, eventLats], ?_⟩
      simp only [TSState.runMsgs, List.foldl_nil, eventLats, List.filterMap_nil, warnInc]
      split <;> simp
  | cons p rest ih =>
      obtain ⟨r, m⟩ := p
      have hfold : st.runMsgs ((r, m) :: rest) = (st.onMessage r m).runMsgs rest := rfl
      cases m with
      | malformed =>
          have hmsg : st.onMessage r .malformed = st := rfl
          have hev : eventLats ((r, TSMsg.malformed) :: rest) = eventLats rest := by
            simp [eventLats]
          rw [hfold, hmsg, hev]
          exact ih st hw
      | noEvent =>
          have hmsg : st.onMessage r .noEvent = st := rfl
          have hev : eventLats ((r, TSMsg.noEvent) :: rest) = eventLats rest := by
            simp [eventLats]
          rw [hfold, hmsg, hev]
          exact ih st hw
      | event e =>
          have hmsg : st.onMessage r (.event e) =
              { stats := st.stats.add ((r - e * 1000000) / 1000000)
                messageCount := st.messageCount + 1
                warmup := st.warmup
                warnings :=
                  if (r - e * 1000000) / 1000000 < -100 ∧ st.messageCount = 0 then
                    st.warnings + 1
                  else st.warnings } := by
            simp [TSState.onMessage, hw]
          have hev : eventLats ((r, TSMsg.event e) :: rest)
              = ((r - e * 1000000) / 1000000) :: eventLats rest := by
            simp [eventLats]
          have hwmsg : (st.onMessage r (.event e)).warmup = false := by
            rw [hmsg]
            exact hw
          rcases ih (st.onMessage r (.event e)) hwmsg with ⟨ih1, ih2, ih3⟩
          rw [hmsg] at ih1 ih2 ih3
          rw [hfold, hmsg, hev]
          refine ⟨?_, ?_, ?_⟩
          · rw [ih1]
            simp [LatencyStats.add]
          · rw [ih2]
            simp
            omega
          · rw [ih3]
            simp only [warnInc]
            rcases Nat.eq_zero_or_pos st.messageCount with hc | hc
            · by_cases hl : (r - e * 1000000) / 1000000 < -100 <;>
                simp [hc, hl]
            · have hc0 : ¬ st.messageCount = 0 := by omega
              have hc1 : ¬ st.messageCount + 1 = 0 := by omega
              simp [hc0, hc1]

/-- C8 amended: starting from the post-warmup state, every event message's
latency sample is recorded as-is into the accumulator (no skew correction
and no dropping, also for large negative values), and the
clock-synchronization warning is printed exactly once if the FIRST
post-warmup event sample is more negative than -100 ms, and never
otherwise — a large negative latency arriving after the first recorded
message is not flagged at all. -/
theorem C8_negative_latency_recorded (msgs : List (ℚ × TSMsg)) :
    (TSState.postWarmup.runMsgs msgs).stats.samples = eventLats msgs ∧
    (TSState.postWarmup.runMsgs msgs).warnings = warnInc 0 (eventLats msgs) := by
  rcases runMsgs_invariant msgs TSState.postWarmup rfl with ⟨h1, h2, h3⟩
  exact ⟨by simpa [TSState.postWarmup] using h1, by simpa [TSState.postWarmup] using h3⟩

/-! ## C6 -/

theorem summaryLines_append (a b : List (String × Except String StatsSnapshot)) :
    summaryLines (a ++ b) = summaryLines a ++ summaryLines b := by
  simp [summaryLines, List.filterMap_append]

theorem summaryLines_single (name : String) (res : Option LatencyStats) :
    summaryLines
        (match res with
         | some s => [(name, s.compute)]
         | none => []) = probeEntry name res := by
  rcases res with _ | s
  · rfl
  · cases hc : s.compute <;> simp [summaryLines, probeEntry, hc]

theorem summaryLines_decomp (tcp ping trade : Option LatencyStats) :
    summaryLines (buildResults tcp ping trade) =
      probeEntry "tcp_connect" tcp ++ probeEntry "ws_ping_pong" ping ++
        probeEntry "trade_stream" trade := by
  unfold buildResults
  rw [summaryLines_append, summaryLines_append,
    summaryLines_single, summaryLines_single, summaryLines_single]

theorem probeEntry_fst (name : String) (res : Option LatencyStats) :
    List.Sublist ((probeEntry name res).map Prod.fst) [name] := by
  rcases res with _ | s
  · simp [probeEntry]
  · cases hc : s.compute <;> simp [probeEntry, hc]

/-- C6 counterexample: with all three probes succeeding and p99 values
10, 1, 5 ms, the summary prints the lines in dict insertion order
tcp_connect, ws_ping_pong, trade_stream with values [10, 1, 5] — neither
ascending nor descending — so the printed p99 comparison is not sorted. -/
theorem C6_counterexample :
    summaryLines (buildResults (some { samples := [10, 10] })
        (some { samples := [1, 1] }) (some { samples := [5, 5] }))
      = [("tcp_connect", 10), ("ws_ping_pong", 1), ("trade_stream", 5)] ∧
    ¬ List.Sorted (· ≤ ·) [(10 : ℚ), 1, 5] ∧
    ¬ List.Sorted (· ≥ ·) [(10 : ℚ), 1, 5] := by
  refine ⟨?_, ?_, ?_⟩
  · norm_num [buildResults, summaryLines, LatencyStats.compute, npPercentile,
      npMin, npMax, npMean, npMedian, sortQ, List.insertionSort, List.orderedInsert,
      List.filterMap_cons, List.filterMap_nil]
  · simp [List.sorted_cons]
  · simp [List.sorted_cons]

/-- C6 amended: the orchestration summary prints one `name: p99` line per
probe in the FIXED dict insertion order tcp_connect, ws_ping_pong,
trade_stream (it does not sort the comparison); a probe that failed (its
`run` returned `None`) or whose `compute()` errored contributes no line at
all — it is omitted, never treated as a zero entry. -/
theorem C6_summary_fixed_order (tcp ping trade : Option LatencyStats) :
    summaryLines (buildResults tcp ping trade) =
      probeEntry "tcp_connect" tcp ++ probeEntry "ws_ping_pong" ping ++
        probeEntry "trade_stream" trade ∧
    List.Sublist ((summaryLines (buildResults tcp ping trade)).map Prod.fst)
      ["tcp_connect", "ws_ping_pong", "trade_stream"] := by
  refine ⟨summaryLines_decomp tcp ping trade, ?_⟩
  rw [summaryLines_decomp tcp ping trade]
  simp only [List.map_append]
  show List.Sublist _ (["tcp_connect"] ++ ["ws_ping_pong"] ++ ["trade_stream"])
  exact ((probeEntry_fst _ _).append (probeEntry_fst _ _)).append (probeEntry_fst _ _)


theorem sorted_getD_mono (s : List ℚ) (hs : s.Sorted (· ≤ ·)) {i j : Nat}
    (hij : i ≤ j) (hj : j < s.length) : s.getD i 0 ≤ s.getD j 0 := by
  have hi : i < s.length := lt_of_le_of_lt hij hj
  rw [List.getD_eq_getElem s 0 hi, List.getD_eq_getElem s 0 hj]
  rcases Nat.eq_or_lt_of_le hij with rfl | hlt
  · exact le_refl _
  · have := hs.rel_get_of_lt (a := ⟨i, hi⟩) (b := ⟨j, hj⟩) (Fin.mk_lt_mk.mpr hlt)
    simpa [List.get_eq_getElem] using this

theorem sortQ_length (xs : List ℚ) : (sortQ xs).length = xs.length :=
  List.length_insertionSort _ xs

theorem npPercentile_bounds (xs : List ℚ) (q : ℚ) (h1 : 1 ≤ xs.length)
    (hq0 : 0 ≤ q) (hq100 : q ≤ 100) :
    npMin xs ≤ npPercentile xs q ∧ npPercentile xs q ≤ npMax xs := by
  have hslen : (sortQ xs).length = xs.length := sortQ_length xs
  have hsorted : (sortQ xs).Sorted (· ≤ ·) := List.sorted_insertionSort _ xs
  set s := sortQ xs with hs_def
  set n := s.length with hn_def
  set h : ℚ := ((n : ℚ) - 1) * q / 100 with hh_def
  have hn1 : 1 ≤ n := by omega
  have hnq : (1 : ℚ) ≤ (n : ℚ) := by exact_mod_cast hn1
  have hh0 : 0 ≤ h := by
    apply div_nonneg _ (by norm_num)
    exact mul_nonneg (by linarith) hq0
  have hh1 : h ≤ (n : ℚ) - 1 := by
    rw [hh_def, div_le_iff₀ (by norm_num : (0:ℚ) < 100)]
    nlinarith
  have hfl_le : ((⌊h⌋ : ℤ) : ℚ) ≤ h := Int.floor_le h
  have hfl_nonneg : 0 ≤ ⌊h⌋ := Int.floor_nonneg.mpr hh0
  have hfl_ub : ⌊h⌋ ≤ (n : ℤ) - 1 := by
    have : ((n : ℚ) - 1) = (((n : ℤ) - 1 : ℤ) : ℚ) := by push_cast; ring
    have h2 := Int.floor_le_floor hh1
    rwa [this, Int.floor_intCast] at h2
  set i : Nat := (⌊h⌋).toNat with hi_def
  have hiz : (i : ℤ) = ⌊h⌋ := Int.toNat_of_nonneg hfl_nonneg
  have hi_le : i ≤ n - 1 := by omega
  have hi_lt : i < n := by omega
  set j : Nat := min (i + 1) (n - 1) with hj_def
  have hj_le : j ≤ n - 1 := by omega
  have hj_lt : j < n := by omega
  have hij : i ≤ j := by omega
  have hfrac0 : 0 ≤ h - ⌊h⌋ := by linarith
  have hfrac1 : h - ⌊h⌋ ≤ 1 := by
    have := Int.lt_floor_add_one h
    linarith
  have hlo_hi : s.getD i 0 ≤ s.getD j 0 := sorted_getD_mono s hsorted hij (by omega)
  have hmin_lo : s.getD 0 0 ≤ s.getD i 0 := sorted_getD_mono s hsorted (Nat.zero_le i) (by omega)
  have hhi_max : s.getD j 0 ≤ s.getD (n - 1) 0 := sorted_getD_mono s hsorted hj_le (by omega)
  have hval : npPercentile xs q = s.getD i 0 + (h - ⌊h⌋) * (s.getD j 0 - s.getD i 0) := rfl
  have hmin : npMin xs = s.getD 0 0 := rfl
  have hmax : npMax xs = s.getD (xs.length - 1) 0 := rfl
  have hmax2 : npMax xs = s.getD (n - 1) 0 := by rw [hmax, ← hslen]
  constructor
  · rw [hval, hmin]
    nlinarith
  · rw [hval, hmax2]
    nlinarith


theorem npPercentile_50_eq_median (xs : List ℚ) (h2 : 2 ≤ xs.length) :
    npPercentile xs 50 = npMedian xs := by
  have hslen : (sortQ xs).length = xs.length := sortQ_length xs
  set s := sortQ xs with hs_def
  set n := s.length with hn_def
  have hn2 : 2 ≤ n := by omega
  have hval : npPercentile xs 50
      = s.getD (⌊((n : ℚ) - 1) * 50 / 100⌋).toNat 0
        + (((n : ℚ) - 1) * 50 / 100 - ⌊((n : ℚ) - 1) * 50 / 100⌋)
          * (s.getD (min ((⌊((n : ℚ) - 1) * 50 / 100⌋).toNat + 1) (n - 1)) 0
             - s.getD (⌊((n : ℚ) - 1) * 50 / 100⌋).toNat 0) := rfl
  have hmed : npMedian xs
      = if n % 2 = 1 then s.getD (n / 2) 0
        else (s.getD (n / 2 - 1) 0 + s.getD (n / 2) 0) / 2 := rfl
  rw [hval, hmed]
  clear_value n
  rcases Nat.even_or_odd n with he | ho
  · obtain ⟨m, hm⟩ := he
    have hm1 : 1 ≤ m := by omega
    subst hm
    have hmod : ¬ (m + m) % 2 = 1 := by omega
    rw [if_neg hmod]
    have hH : (((m + m : ℕ) : ℚ) - 1) * 50 / 100 = (m : ℚ) - 1/2 := by
      push_cast
      ring
    rw [hH]
    have hfl : ⌊(m : ℚ) - 1/2⌋ = (m : ℤ) - 1 := by
      rw [Int.floor_eq_iff]
      constructor
      · push_cast
        linarith
      · push_cast
        linarith
    rw [hfl]
    have htn : ((m : ℤ) - 1).toNat = m - 1 := by omega
    rw [htn]
    have hmin : min (m - 1 + 1) (m + m - 1) = m := by omega
    rw [hmin]
    have hdiv : (m + m) / 2 = m := by omega
    rw [hdiv]
    have hcast : (((m : ℤ) - 1 : ℤ) : ℚ) = (m : ℚ) - 1 := by push_cast; ring
    rw [hcast]
    ring
  · obtain ⟨m, hm⟩ := ho
    subst hm
    have hmod : (2 * m + 1) % 2 = 1 := by omega
    rw [if_pos hmod]
    have hH : (((2 * m + 1 : ℕ) : ℚ) - 1) * 50 / 100 = (m : ℚ) := by
      push_cast
      ring
    rw [hH]
    have hfl : ⌊(m : ℚ)⌋ = (m : ℤ) := Int.floor_natCast m
    rw [hfl]
    have htn : ((m : ℤ)).toNat = m := by omega
    rw [htn]
    have hdiv : (2 * m + 1) / 2 = m := by omega
    rw [hdiv]
    have hcast : (((m : ℤ) : ℤ) : ℚ) = (m : ℚ) := by push_cast; ring
    rw [hcast]
    ring


theorem npPercentile_eq_linearInterp (xs : List ℚ) (q : ℚ) :
    npPercentile xs q = linearInterp (sortQ xs) q := by
  unfold npPercentile linearInterp
  ring

/-- C3 counterexample: for the accumulator with samples [0, 100], the code
(numpy linear interpolation) reports p50 = 50, while the nearest-rank method
the claim describes (index floor(50/100 * 2) = 1 of the sorted sequence)
yields 100 — so compute() does not use the nearest-rank method. -/
theorem C3_counterexample :
    (LatencyStats.compute { samples := [0, 100] }).map StatsSnapshot.p50 = .ok 50 ∧
    nearestRankPercentile [0, 100] 50 = 100 ∧
    (50 : ℚ) ≠ 100 := by
  refine ⟨?_, ?_, by norm_num⟩
  · norm_num [LatencyStats.compute, Except.map, npPercentile, sortQ,
      List.insertionSort, List.orderedInsert]
  · norm_num [nearestRankPercentile, sortQ, List.insertionSort, List.orderedInsert]

/-- C3 amended: for every accumulator with at least 2 samples, compute()
returns the percentiles p50/p90/p95/p99 computed by numpy's default linear
interpolation method on the sorted sample sequence: with h = (n-1)*q/100,
i = floor(h) and f = h - floor(h), the value is the convex combination
(1-f)*s[i] + f*s[min(i+1, n-1)] of adjacent order statistics of a sorted
permutation s of the samples (not the nearest-rank value). -/
theorem C3_percentiles_linear (xs : List ℚ) (h : 2 ≤ xs.length) :
    ∃ s snap, LatencyStats.compute { samples := xs } = .ok snap ∧
      s.Perm xs ∧ s.Sorted (· ≤ ·) ∧
      snap.p50 = linearInterp s 50 ∧ snap.p90 = linearInterp s 90 ∧
      snap.p95 = linearInterp s 95 ∧ snap.p99 = linearInterp s 99 := by
  have hlt : ¬ ({ samples := xs } : LatencyStats).samples.length < 2 := by
    simpa using Nat.not_lt.mpr h
  unfold LatencyStats.compute
  rw [if_neg hlt]
  exact ⟨sortQ xs, _, rfl, List.perm_insertionSort _ xs, List.sorted_insertionSort _ xs,
    npPercentile_eq_linearInterp xs 50, npPercentile_eq_linearInterp xs 90,
    npPercentile_eq_linearInterp xs 95, npPercentile_eq_linearInterp xs 99⟩

/-- Witness for the amended C3 at the two-sample accumulator [2, 4]. -/
theorem C3_percentiles_linear_witness :
    ∃ s snap, LatencyStats.compute { samples := [2, 4] } = .ok snap ∧
      s.Perm [2, 4] ∧ s.Sorted (· ≤ ·) ∧
      snap.p50 = linearInterp s 50 ∧ snap.p90 = linearInterp s 90 ∧
      snap.p95 = linearInterp s 95 ∧ snap.p99 = linearInterp s 99 :=
  C3_percentiles_linear [2, 4] (by norm_num)

/-- C9: for every accumulator with at least 2 samples, the snapshot returned
by compute() satisfies min ≤ p50, p90, p95, p99 ≤ max, and p50 equals the
median (numpy's linear-interpolation p50 coincides exactly with np.median,
hence is within nearest-rank rounding of it). -/
theorem C9_percentiles_bounded (xs : List ℚ) (h : 2 ≤ xs.length) :
    ∃ snap, LatencyStats.compute { samples := xs } = .ok snap ∧
      snap.min ≤ snap.p50 ∧ snap.p50 ≤ snap.max ∧
      snap.min ≤ snap.p90 ∧ snap.p90 ≤ snap.max ∧
      snap.min ≤ snap.p95 ∧ snap.p95 ≤ snap.max ∧
      snap.min ≤ snap.p99 ∧ snap.p99 ≤ snap.max ∧
      snap.p50 = snap.median := by
  have hlt : ¬ ({ samples := xs } : LatencyStats).samples.length < 2 := by
    simpa using Nat.not_lt.mpr h
  have h1 : 1 ≤ xs.length := by omega
  unfold LatencyStats.compute
  rw [if_neg hlt]
  obtain ⟨h50a, h50b⟩ := npPercentile_bounds xs 50 h1 (by norm_num) (by norm_num)
  obtain ⟨h90a, h90b⟩ := npPercentile_bounds xs 90 h1 (by norm_num) (by norm_num)
  obtain ⟨h95a, h95b⟩ := npPercentile_bounds xs 95 h1 (by norm_num) (by norm_num)
  obtain ⟨h99a, h99b⟩ := npPercentile_bounds xs 99 h1 (by norm_num) (by norm_num)
  exact ⟨_, rfl, h50a, h50b, h90a, h90b, h95a, h95b, h99a, h99b,
    npPercentile_50_eq_median xs h⟩

/-- Witness for C9 at the two-sample accumulator [1, 2]. -/
theorem C9_percentiles_bounded_witness :
    ∃ snap, LatencyStats.compute { samples := [1, 2] } = .ok snap ∧
      snap.min ≤ snap.p50 ∧ snap.p50 ≤ snap.max ∧
      snap.min ≤ snap.p90 ∧ snap.p90 ≤ snap.max ∧
      snap.min ≤ snap.p95 ∧ snap.p95 ≤ snap.max ∧
      snap.min ≤ snap.p99 ∧ snap.p99 ≤ snap.max ∧
      snap.p50 = snap.median :=
  C9_percentiles_bounded [1, 2] (by norm_num)


theorem sendsOf_cons_send (t : ℚ) (l : List WSEvent) :
    sendsOf (.send t :: l) = t :: sendsOf l := by
  simp [sendsOf]

theorem sendsOf_cons_pong (r : ℚ) (l : List WSEvent) :
    sendsOf (.pong r :: l) = sendsOf l := by
  simp [sendsOf]

theorem pongsOf_cons_send (t : ℚ) (l : List WSEvent) :
    pongsOf (.send t :: l) = pongsOf l := by
  simp [pongsOf]

theorem pongsOf_cons_pong (r : ℚ) (l : List WSEvent) :
    pongsOf (.pong r :: l) = r :: pongsOf l := by
  simp [pongsOf]

theorem run_invariant (tr : List WSEvent) (st : WSState)
    (hsock : st.sockOpen = true) (hrun : st.running = true)
    (hc : ∀ n, (pongsOf (tr.take n)).length
      ≤ st.pending.length + (sendsOf (tr.take n)).length) :
    (st.run tr).stats.samples
        = st.stats.samples ++
            List.zipWith (fun r t => (r - t) / 1000000) (pongsOf tr) (st.pending ++ sendsOf tr) ∧
    (st.run tr).pending = (st.pending ++ sendsOf tr).drop (pongsOf tr).length := by
  induction tr generalizing st with
  | nil =>
      simp [WSState.run, sendsOf, pongsOf]
  | cons e rest ih =>
      have hfold : st.run (e :: rest) = (st.step e).run rest := rfl
      cases e with
      | send t =>
          have hstep : st.step (.send t) = { st with pending := st.pending ++ [t] } := by
            simp [WSState.step, WSState.sendPing, hsock, hrun]
          have hc2 : ∀ n, (pongsOf (rest.take n)).length
              ≤ ({ st with pending := st.pending ++ [t] } : WSState).pending.length
                + (sendsOf (rest.take n)).length := by
            intro n
            have h := hc (n + 1)
            rw [List.take_succ_cons, pongsOf_cons_send, sendsOf_cons_send] at h
            simp at h ⊢
            omega
          rcases ih { st with pending := st.pending ++ [t] } hsock hrun hc2 with ⟨ih1, ih2⟩
          rw [hfold, hstep, sendsOf_cons_send, pongsOf_cons_send]
          constructor
          · rw [ih1]
            simp
          · rw [ih2]
            simp
      | pong r =>
          cases hp : st.pending with
          | nil =>
              exfalso
              have h := hc 1
              rw [hp] at h
              simp [List.take_succ_cons, pongsOf_cons_pong, sendsOf_cons_pong,
                List.take_nil, pongsOf, sendsOf] at h
          | cons t0 P =>
              have hstep : st.step (.pong r)
                  = { st with
                      pending := P
                      stats := st.stats.add ((r - t0) / 1000000) } := by
                simp [WSState.step, WSState.onPong, hp]
              have hc2 : ∀ n, (pongsOf (rest.take n)).length
                  ≤ ({ st with
                        pending := P
                        stats := st.stats.add ((r - t0) / 1000000) } : WSState).pending.length
                    + (sendsOf (rest.take n)).length := by
                intro n
                have h := hc (n + 1)
                rw [List.take_succ_cons, pongsOf_cons_pong, sendsOf_cons_pong, hp] at h
                simp at h ⊢
                omega
              rcases ih { st with
                  pending := P
                  stats := st.stats.add ((r - t0) / 1000000) } hsock hrun hc2 with ⟨ih1, ih2⟩
              rw [hfold, hstep, sendsOf_cons_pong, pongsOf_cons_pong]
              constructor
              · rw [ih1]
                simp [LatencyStats.add]
              · rw [ih2]
                simp

/-- C1: FIFO pong-to-ping matching.  For any serialised interleaving of
`send_ping` calls and `on_pong` callbacks starting from the reset
measurement state, if the sends carry timestamps t1 < t2 < ... < tk and the
pongs are delivered in the same order (causality: no trace prefix contains
more pongs than sends), then the i-th pong pops exactly the queue head ti
and records (ri - ti)/1e6 ms as the i-th latency sample, and the pending
queue retains exactly the unmatched send timestamps. -/
theorem C1_fifo_matching (tr : List WSEvent) (ts rs : List ℚ)
    (hsends : sendsOf tr = ts) (hpongs : pongsOf tr = rs)
    (_hmono : ts.Chain' (· < ·)) (hc : Causal tr) :
    (WSState.initial.run tr).stats.samples
        = List.zipWith (fun r t => (r - t) / 1000000) rs ts ∧
    (WSState.initial.run tr).pending = ts.drop rs.length := by
  subst hsends hpongs
  rcases run_invariant tr WSState.initial rfl rfl
      (fun n => by simpa [WSState.initial] using hc n) with ⟨h1, h2⟩
  constructor
  · simpa [WSState.initial] using h1
  · simpa [WSState.initial] using h2

/-- Witness for C1: the trace send 10, send 20, pong 30, send 40, pong 50,
pong 60 matches pongs to sends strictly FIFO. -/
theorem C1_fifo_matching_witness :
    (WSState.initial.run
        [.send 10, .send 20, .pong 30, .send 40, .pong 50, .pong 60]).stats.samples
      = List.zipWith (fun r t => (r - t) / 1000000) [30, 50, 60] [10, 20, 40] ∧
    (WSState.initial.run
        [.send 10, .send 20, .pong 30, .send 40, .pong 50, .pong 60]).pending
      = List.drop (List.length [(30 : ℚ), 50, 60]) [(10 : ℚ), 20, 40] := by
  apply C1_fifo_matching
  · rfl
  · rfl
  · norm_num [List.chain'_cons]
  · intro n
    rcases Nat.lt_or_ge n 6 with hn | hn
    · interval_cases n <;> decide
    · rw [List.take_of_length_le (by simpa using hn)]
      decide

end WsLatency
